import Mathlib

/-!
Verification development for the n-netman daemon (VXLAN overlay manager).

Shallow embedding of the route-exchange control plane, the in-memory route
table, the import-policy filter, the kernel route driver and the
reconciliation sweep, translated from the Go sources
(`internal/controlplane`, `internal/routing`, `internal/netlink/route.go`,
`internal/reconciler`, `cmd/nnetd/main.go`).

Modelling conventions:
* Time is a `Nat` counting milliseconds.  Go's zero `time.Time` (the
  "unset" value tested with `IsZero`) is modelled as `Option Nat` with
  `none` for the zero value.
* Go's `map[string]Route` is modelled as an association list
  `List (String × Route)`; the well-formedness predicate `RouteTable.WF`
  records the map invariants (distinct keys, key = route prefix).
* Machine integers (`uint32`, table ids) fit comfortably in `Nat` here:
  no operation in the modelled code can overflow them.
-/

namespace NNetMan

/-- Go `controlplane.Route`: a unit of prefix advertisement.
Fields are those of the Go struct; `pfx` is the Go field `Prefix`
(a CIDR string), `expiresAt = none` models the zero `time.Time`.
The `vni` field is present on the current `controlplane.Route`
(its callers `installReceivedRoutes` and `runRouteRefreshLoop` read `r.VNI`);
an earlier snapshot of the package lacks it. -/
structure Route where
  pfx : String
  nextHop : String
  metric : Nat
  leaseSeconds : Nat
  tags : List String
  vni : Nat
  receivedAt : Nat
  expiresAt : Option Nat
  peerID : String
  deriving Repr, DecidableEq

/-- The in-memory route table: Go `map[string]Route` keyed by prefix,
modelled as an association list. -/
abbrev RouteTable := List (String × Route)

/-- Go `NewRouteTable`: the empty table. -/
def RouteTable.empty : RouteTable := []

/-- Map invariants of the Go `map[string]Route`: keys are distinct, and every
stored route sits under its own prefix (all writers use `routes[r.Prefix] = r`). -/
def RouteTable.WF (t : RouteTable) : Prop :=
  (List.map Prod.fst t).Nodup ∧ ∀ e ∈ t, e.1 = e.2.pfx

/-- Go `RouteTable.Get`: lookup by prefix (`r, ok := rt.routes[prefix]`). -/
def RouteTable.get (t : RouteTable) (p : String) : Option Route :=
  (t.find? (fun e => e.1 = p)).map Prod.snd

/-- Go `RouteTable.Remove`: `delete(rt.routes, prefix)`. -/
def RouteTable.remove (t : RouteTable) (p : String) : RouteTable :=
  t.filter (fun e => ¬ e.1 = p)

/-- The timestamp/lease stamping performed by `RouteTable.Add` before the
map write: `r.ReceivedAt = time.Now()` and, when `r.LeaseSeconds > 0`,
`r.ExpiresAt = r.ReceivedAt.Add(lease seconds)`. When the lease is zero the
`ExpiresAt` field is left as passed in. -/
def stampRoute (now : Nat) (r : Route) : Route :=
  let r' := { r with receivedAt := now }
  if r.leaseSeconds > 0 then
    { r' with expiresAt := some (now + r.leaseSeconds * 1000) }
  else
    r'

/-- Go `RouteTable.Add`: stamps the route and performs the map write
`rt.routes[r.Prefix] = r` (insert or overwrite). -/
def RouteTable.add (t : RouteTable) (now : Nat) (r : Route) : RouteTable :=
  t.remove r.pfx ++ [(r.pfx, stampRoute now r)]

/-- Go `RouteTable.RemoveByPeer`: deletes every entry whose `PeerID` matches and
returns how many were removed. -/
def RouteTable.removeByPeer (t : RouteTable) (peerID : String) : RouteTable × Nat :=
  (t.filter (fun e => ¬ e.2.peerID = peerID),
   (t.filter (fun e => e.2.peerID = peerID)).length)

/-- Go `RouteTable.All`: all stored routes. -/
def RouteTable.all (t : RouteTable) : List Route :=
  t.map Prod.snd

/-- The expiry test of `RouteTable.ExpireStale`:
`!r.ExpiresAt.IsZero() && r.ExpiresAt.Before(now)` (strict). -/
def Route.isStale (r : Route) (now : Nat) : Bool :=
  match r.expiresAt with
  | none => false
  | some e => e < now

/-- Modelled from the spec: `expire_stale()` "removes and returns every entry
whose `expires_at` is set and in the past".  The current
`internal/controlplane` file is absent from the sources (its caller
`runRouteRefreshLoop` iterates over the returned routes); an earlier
snapshot (`RouteTable.ExpireStale` in part_009) removes with the same
test `!r.ExpiresAt.IsZero() && r.ExpiresAt.Before(now)` but returns only a
count.  The removal predicate is taken from that snapshot, the return value
from the spec. -/
def RouteTable.expireStale (t : RouteTable) (now : Nat) : RouteTable × List Route :=
  (t.filter (fun e => ¬ e.2.isStale now),
   (t.filter (fun e => e.2.isStale now)).map Prod.snd)

/-! ### Wire messages and server RPC handlers (`internal/controlplane`) -/

/-- Go `pb.Route`: the wire form of a route.  Note there is no peer field on the
wire: peer attribution is decided by the server from the request's `node_id`. -/
structure WireRoute where
  pfx : String
  nextHop : String
  metric : Nat
  leaseSeconds : Nat
  tags : List String
  vni : Nat
  deriving Repr, DecidableEq

/-- Go `pb.StateRequest`. -/
structure StateRequest where
  nodeId : String
  routes : List WireRoute
  timestampMs : Nat
  deriving Repr, DecidableEq

/-- Go `pb.StateResponse`. -/
structure StateResponse where
  nodeId : String
  routes : List WireRoute
  timestampMs : Nat
  accepted : Bool
  deriving Repr, DecidableEq

/-- Go `pb.RouteAnnouncement`. -/
structure RouteAnnouncement where
  nodeId : String
  routes : List WireRoute
  timestampMs : Nat
  deriving Repr, DecidableEq

/-- Go `pb.RouteWithdrawal`. -/
structure RouteWithdrawal where
  nodeId : String
  prefixes : List String
  timestampMs : Nat
  deriving Repr, DecidableEq

/-- Go `pb.RouteAck`. -/
structure RouteAck where
  accepted : Bool
  routesProcessed : Nat
  error : String
  deriving Repr, DecidableEq

/-- The per-route conversion done inside `Server.ExchangeState` /
`Server.AnnounceRoutes`: copy the wire fields and stamp `PeerID` with the
request's `NodeId`. `ReceivedAt`/`ExpiresAt` start as Go zero values. -/
def wireToRoute (nodeId : String) (w : WireRoute) : Route :=
  { pfx := w.pfx, nextHop := w.nextHop, metric := w.metric,
    leaseSeconds := w.leaseSeconds, tags := w.tags, vni := w.vni,
    receivedAt := 0, expiresAt := none, peerID := nodeId }

/-- The ingestion loop shared by `ExchangeState` and `AnnounceRoutes`:
each wire route is converted, added to the table, and collected into the
`incomingRoutes` slice handed to the routes-received callback. -/
def ingestRoutes (nodeId : String) (ws : List WireRoute) (now : Nat)
    (t : RouteTable) : RouteTable × List Route :=
  ws.foldl
    (fun acc w =>
      (acc.1.add now (wireToRoute nodeId w), acc.2 ++ [wireToRoute nodeId w]))
    (t, [])

/-- The reverse conversion used when building responses. -/
def routeToWire (r : Route) : WireRoute :=
  { pfx := r.pfx, nextHop := r.nextHop, metric := r.metric,
    leaseSeconds := r.leaseSeconds, tags := r.tags, vni := r.vni }

/-- Go `Server.getExportableRoutes`: all routes with empty `PeerID` (local). -/
def getExportableRoutes (t : RouteTable) : List Route :=
  (t.all).filter (fun r => r.peerID = "")

/-- Go `Server.ExchangeState`: ingest the sender's routes (stamped with the
sender's `node_id`), return the new table, the callback argument, and the
response carrying this node's exportable routes. -/
def Server.exchangeState (serverNodeId : String) (req : StateRequest)
    (now : Nat) (t : RouteTable) : RouteTable × List Route × StateResponse :=
  let res := ingestRoutes req.nodeId req.routes now t
  (res.1, res.2,
   { nodeId := serverNodeId,
     routes := (getExportableRoutes res.1).map routeToWire,
     timestampMs := now, accepted := true })

/-- Go `Server.AnnounceRoutes`: ingest and acknowledge with
`RoutesProcessed = len(req.Routes)`. -/
def Server.announceRoutes (req : RouteAnnouncement) (now : Nat)
    (t : RouteTable) : RouteTable × List Route × RouteAck :=
  let res := ingestRoutes req.nodeId req.routes now t
  (res.1, res.2,
   { accepted := true, routesProcessed := req.routes.length, error := "" })

/-- The `Server.WithdrawRoutes` loop: for each requested prefix, remove the
table entry only when the stored route's `PeerID` equals the requesting
`node_id`, counting removals. -/
def withdrawLoop (nodeId : String) (t : RouteTable) (count : Nat) :
    List String → RouteTable × Nat
  | [] => (t, count)
  | p :: ps =>
    match RouteTable.get t p with
    | some r =>
      if r.peerID = nodeId then
        withdrawLoop nodeId (RouteTable.remove t p) (count + 1) ps
      else
        withdrawLoop nodeId t count ps
    | none => withdrawLoop nodeId t count ps

/-- Go `Server.WithdrawRoutes`: run the loop and acknowledge with the number of
removed entries as `RoutesProcessed`. -/
def Server.withdrawRoutes (req : RouteWithdrawal) (t : RouteTable) :
    RouteTable × RouteAck :=
  let res := withdrawLoop req.nodeId t 0 req.prefixes
  (res.1, { accepted := true, routesProcessed := res.2, error := "" })

/-! ### Client health probing (`Client.CheckPeerHealth`) -/

/-- A `peerConn` entry of the client's connection map (the fields the health
check touches). -/
structure PeerConn where
  peerID : String
  address : String
  healthy : Bool
  lastSeen : Nat
  deriving Repr, DecidableEq

/-- Outcome of one `ExchangeState` health probe, as the spec distinguishes
them: success, `codes.Unavailable`, or timeout. -/
inductive ProbeOutcome where
  | success
  | unavailable
  | timeout
  deriving Repr, DecidableEq

/-- Whether a probe outcome counts as a failure (Unavailable or timeout). -/
def ProbeOutcome.failed : ProbeOutcome → Bool
  | .success => false
  | .unavailable => true
  | .timeout => true

/-- The health-probe request: an `ExchangeState` carrying an empty route
list. -/
def healthProbeRequest (nodeId : String) (now : Nat) : StateRequest :=
  { nodeId := nodeId, routes := [], timestampMs := now }

/-- The per-probe timeout (`context.WithTimeout(ctx, 5*time.Second)`). -/
def healthProbeTimeoutMs : Nat := 5000

/-- Modelled from the spec: `check_peer_health()` "probes each peer with a
lightweight ExchangeState carrying an empty route list; timeout is 5 s. On
Unavailable/timeout the peer's health flips to unhealthy; on success, to
healthy with refreshed last_seen. The function returns the list of peer ids
that transitioned healthy → unhealthy in this probe round."  The current
`internal/controlplane` file is absent from the sources; its caller
`runRouteRefreshLoop` consumes the returned `downPeers` list.  An earlier
snapshot (part_009) returns only an error and flips health only on
`codes.Unavailable`.  The probe outcome per peer is abstracted by the
`outcome` function. -/
def checkPeerHealth (now : Nat) (outcome : String → ProbeOutcome)
    (conns : List PeerConn) : List PeerConn × List String :=
  (conns.map (fun pc =>
      if (outcome pc.peerID).failed then
        { pc with healthy := false }
      else
        { pc with healthy := true, lastSeen := now }),
   (conns.filter (fun pc => pc.healthy && (outcome pc.peerID).failed)).map
     (fun pc => pc.peerID))

/-! ### CIDR parsing and the import-policy filter (`internal/routing`)

The Go code uses `net.ParseCIDR` / `net.ParseIP`.  We embed their IPv4
(dotted-quad) behaviour: four decimal octets without leading zeros, each
≤ 255, and for CIDRs a decimal prefix length ≤ 32; `ParseCIDR` stores the
*masked* network address.  IPv6 textual forms are not modelled; an IPv6
policy prefix can never match an IPv4 route in Go (`IPNet.Contains`
rejects mixed families), so on IPv4 routes the model agrees with the code. -/

/-- A parsed IPv4 CIDR: network address (as a 32-bit value) and prefix
length. -/
structure Cidr where
  addr : Nat
  ones : Nat
  deriving Repr, DecidableEq

/-- Keep only the top `ones` bits of a 32-bit address. -/
def maskAddr (ones a : Nat) : Nat :=
  a / 2 ^ (32 - ones) * 2 ^ (32 - ones)

/-- Split a character list on a separator (the behaviour of Go's string
splitting used by `ParseCIDR`/`ParseIP`). -/
def splitOnChar (sep : Char) : List Char → List (List Char)
  | [] => [[]]
  | c :: cs =>
    if c = sep then
      [] :: splitOnChar sep cs
    else
      match splitOnChar sep cs with
      | [] => [[c]]
      | h :: rest => (c :: h) :: rest

/-- Non-empty all-digit field. -/
def isDigits (cs : List Char) : Bool :=
  decide (cs ≠ []) && cs.all (fun c => c.isDigit)

/-- Decimal value of a digit field. -/
def decVal (cs : List Char) : Nat :=
  cs.foldl (fun n c => n * 10 + (c.toNat - 48)) 0

/-- One dotted-quad octet: decimal, no leading zero, ≤ 255
(Go `net.ParseIP` field rules). -/
def parseOctet (cs : List Char) : Option Nat :=
  if isDigits cs && (decide (cs.length = 1) || decide (cs.head? ≠ some '0'))
      && decide (decVal cs ≤ 255) then
    some (decVal cs)
  else
    none

/-- Go `net.ParseIP` restricted to dotted-quad IPv4, as a 32-bit value. -/
def parseIPv4 (s : String) : Option Nat :=
  match splitOnChar '.' s.toList with
  | [a, b, c, d] => do
    let va ← parseOctet a
    let vb ← parseOctet b
    let vc ← parseOctet c
    let vd ← parseOctet d
    pure (va * 2 ^ 24 + vb * 2 ^ 16 + vc * 2 ^ 8 + vd)
  | _ => none

/-- Go `net.ParseCIDR` restricted to IPv4: address part, `/`, decimal prefix
length ≤ 32.  The stored address is masked (`ip.Mask(mask)`). -/
def parseCIDR (s : String) : Option Cidr :=
  match splitOnChar '/' s.toList with
  | [a, m] => do
    let ip ← parseIPv4 (String.mk a)
    if isDigits m && decide (decVal m ≤ 32) then
      pure { addr := maskAddr (decVal m) ip, ones := decVal m }
    else
      none
  | _ => none

/-- Go `matchesPrefix` (internal/routing/routing.go): parse the policy prefix;
check `policyNet.Contains(routeNet.IP)` (the route's masked base address)
and `policyOnes <= routeOnes`. -/
def matchesPrefix (routeNet : Cidr) (policyPrefix : String) : Bool :=
  match parseCIDR policyPrefix with
  | none => false
  | some policyNet =>
    decide (maskAddr policyNet.ones routeNet.addr = policyNet.addr) &&
    decide (policyNet.ones ≤ routeNet.ones)

/-- Go `overlay.Routing.Import.Install` (the fields the modelled code reads). -/
structure InstallConfig where
  table : Nat
  flushOnPeerDown : Bool
  routeLeaseSeconds : Nat
  deriving Repr, DecidableEq

/-- Go `overlay.Routing.Import`. -/
structure ImportConfig where
  acceptAll : Bool
  allow : List String
  deny : List String
  install : InstallConfig
  deriving Repr, DecidableEq

/-- An overlay definition (`config.OverlayDef`), restricted to the fields the
modelled code reads. -/
structure OverlayDef where
  vni : Nat
  name : String
  imp : ImportConfig
  deriving Repr, DecidableEq

/-- The configuration slice the modelled code reads: `cfg.GetOverlays()` and
the legacy global `cfg.Routing.Import.Install`. -/
structure Config where
  overlays : List OverlayDef
  legacyInstall : InstallConfig
  deriving Repr, DecidableEq

/-- Go `Manager.ShouldImportForOverlay`: parse the route prefix (unparseable →
`false`); deny first, then `accept_all`, then the allow list. -/
def shouldImportForOverlay (route : Route) (imp : ImportConfig) : Bool :=
  match parseCIDR route.pfx with
  | none => false
  | some routeNet =>
    if imp.deny.any (fun d => matchesPrefix routeNet d) then false
    else if imp.acceptAll then true
    else imp.allow.any (fun a => matchesPrefix routeNet a)

/-- Spec-side reading of "supernet of or equal to": the policy string parses
to a network that contains every address of the route's network and has
prefix length ≤ the route's. -/
def supernetOrEqualOf (policyPrefix : String) (rn : Cidr) : Prop :=
  ∃ pn, parseCIDR policyPrefix = some pn ∧
    (∀ a, maskAddr rn.ones a = rn.addr → maskAddr pn.ones a = pn.addr) ∧
    pn.ones ≤ rn.ones

/-! ### Kernel route driver (`internal/netlink/route.go`) and the daemon's
install / flush paths (`cmd/nnetd/main.go`) -/

/-- The protocol tag stamped on daemon-installed routes
(`RouteProtocolNNetMan = 99`). -/
def RouteProtocolNNetMan : Nat := 99

/-- A kernel route as the driver sees it (`RouteConfig`/`RouteInfo`): parsed
destination, gateway, table, metric, protocol tag. -/
structure KernelRoute where
  dest : Cidr
  gw : Option Nat
  table : Nat
  metric : Nat
  protocol : Nat
  deriving Repr, DecidableEq

/-- The kernel routing state: the set of installed routes. -/
abbrev Kernel := List KernelRoute

/-- Go `RouteManager.Delete` (netlink `RouteDel` keyed on destination and
table): removes the matching entries, "not found" is not an error. -/
def kernelDelete (dest : Cidr) (table : Nat) (k : Kernel) : Kernel :=
  k.filter (fun r => ¬ (r.dest = dest ∧ r.table = table))

/-- Go `RouteManager.Replace` (netlink `RouteReplace`): upsert keyed on
destination and table. -/
def kernelReplace (r : KernelRoute) (k : Kernel) : Kernel :=
  kernelDelete r.dest r.table k ++ [r]

/-- Go `RouteManager.ListByProtocol`: routes of `table` whose protocol tag
matches. -/
def listByProtocol (table protocol : Nat) (k : Kernel) : Kernel :=
  k.filter (fun r => r.table = table ∧ r.protocol = protocol)

/-- Go `RouteManager.FlushByProtocol`: list the matching routes, then delete
each one individually; a failed delete (modelled by the `ok` predicate) is
logged and the loop continues. -/
def flushByProtocol (ok : KernelRoute → Bool) (table protocol : Nat)
    (k : Kernel) : Kernel :=
  (listByProtocol table protocol k).foldl
    (fun acc r => if ok r then kernelDelete r.dest table acc else acc) k

/-- Table defaulting used throughout `cmd/nnetd/main.go`:
`if table == 0 { table = 100 }`. -/
def tableOrDefault (t : Nat) : Nat :=
  if t = 0 then 100 else t

/-- The VNI → table map built by `installReceivedRoutes` and
`runRouteRefreshLoop` from the overlay list (later overlays overwrite
earlier ones on a duplicate VNI, as map writes do). -/
def vniToTable (cfg : Config) (v : Nat) : Option Nat :=
  (cfg.overlays.reverse.find? (fun o => o.vni = v)).map
    (fun o => tableOrDefault o.imp.install.table)

/-- The legacy/global install table (`cfg.Routing.Import.Install.Table`,
defaulted to 100): the fallback for unknown VNIs and the only table the
shutdown flush touches. -/
def defaultTable (cfg : Config) : Nat :=
  tableOrDefault cfg.legacyInstall.table

/-- Table for a received route: its VNI's overlay table, else the fallback. -/
def tableForVni (cfg : Config) (v : Nat) : Nat :=
  (vniToTable cfg v).getD (defaultTable cfg)

/-- The body of the `installReceivedRoutes` loop (cmd/nnetd/main.go): parse
the prefix and the next-hop (a failure of either skips the route with a
warning, `continue`), pick the table from the route's VNI, and `Replace`
the route into the kernel with the daemon's protocol tag. -/
def installStep (cfg : Config) (acc : Kernel) (r : Route) : Kernel :=
  match parseCIDR r.pfx with
  | none => acc
  | some dest =>
    match parseIPv4 r.nextHop with
    | none => acc
    | some gw =>
      kernelReplace
        { dest := dest, gw := some gw, table := tableForVni cfg r.vni,
          metric := r.metric, protocol := RouteProtocolNNetMan } acc

/-- Go `installReceivedRoutes` (cmd/nnetd/main.go): install every received
route that parses. -/
def installReceivedRoutes (cfg : Config) (routes : List Route) (k : Kernel) :
    Kernel :=
  routes.foldl (installStep cfg) k

/-- Whether a received route survives the parse checks of
`installReceivedRoutes`. -/
def routeParses (r : Route) : Bool :=
  (parseCIDR r.pfx).isSome && (parseIPv4 r.nextHop).isSome

/-- The shutdown flush of `cmd/nnetd/main.go` (`main`, after `<-ctx.Done()`):
one `FlushByProtocol` on the legacy/global install table only. -/
def shutdownFlush (cfg : Config) (ok : KernelRoute → Bool) (k : Kernel) :
    Kernel :=
  flushByProtocol ok (defaultTable cfg) RouteProtocolNNetMan k

/-! ### Reconciliation sweep (`internal/reconciler`) -/

/-- The reconciler status fields written by `Reconcile`
(`lastRun`, `lastErr`). -/
structure RecState where
  lastRun : Option Nat
  lastErr : Option String
  deriving Repr, DecidableEq

/-- The per-overlay loop body of `Reconciler.Reconcile`: on the first
overlay whose `reconcileOverlay` fails, stop and return the error; the
overlays actually attempted are returned alongside.  `outcome` abstracts
`reconcileOverlay`'s kernel interactions (`none` = success). -/
def reconcileLoop (outcome : OverlayDef → Option String) :
    List OverlayDef → List OverlayDef × Option String
  | [] => ([], none)
  | o :: rest =>
    match outcome o with
    | some e => ([o], some e)
    | none =>
      let r := reconcileLoop outcome rest
      (o :: r.1, r.2)

/-- Go `Reconciler.Reconcile`: stamp `lastRun`; an empty overlay list is a
warning and an early `nil` return (without touching `lastErr`); otherwise
run the per-overlay loop, record the error (or clear it on success), and
return it. -/
def reconcile (now : Nat) (cfg : Config)
    (outcome : OverlayDef → Option String) (s : RecState) :
    RecState × Option String × List OverlayDef :=
  let s1 := { s with lastRun := some now }
  if cfg.overlays = [] then (s1, none, [])
  else
    let r := reconcileLoop outcome cfg.overlays
    ({ s1 with lastErr := r.2 }, r.2, r.1)

/-! ### Concrete example values used by counterexamples and witnesses -/

/-- A lease-10 route as in the spec's lease scenario. -/
def leaseRoute : Route :=
  { pfx := "172.16.30.0/24", nextHop := "10.100.0.3", metric := 100,
    leaseSeconds := 10, tags := [], vni := 100, receivedAt := 0,
    expiresAt := none, peerID := "host-c" }

/-- Production overlay, table 100. -/
def overlayProd : OverlayDef :=
  { vni := 100, name := "vxlan-prod",
    imp := { acceptAll := true, allow := [], deny := [],
             install := { table := 100, flushOnPeerDown := true,
                          routeLeaseSeconds := 30 } } }

/-- Management overlay, table 200. -/
def overlayMgmt : OverlayDef :=
  { vni := 200, name := "vxlan-mgmt",
    imp := { acceptAll := true, allow := [], deny := [],
             install := { table := 200, flushOnPeerDown := true,
                          routeLeaseSeconds := 30 } } }

/-- A two-overlay configuration (tables 100 and 200), legacy install table
unset (thus defaulting to 100). -/
def cfgTwoOverlays : Config :=
  { overlays := [overlayProd, overlayMgmt],
    legacyInstall := { table := 0, flushOnPeerDown := false,
                       routeLeaseSeconds := 0 } }

/-- A daemon-tagged kernel route living in the management overlay's
table 200. -/
def kernelRouteMgmt : KernelRoute :=
  { dest := { addr := 174331904, ones := 24 }, gw := some 174331906,
    table := 200, metric := 100, protocol := RouteProtocolNNetMan }

/-- Per-overlay outcome in which the production overlay's reconciliation
fails (e.g. its bridge step) and every other overlay would succeed. -/
def outcomeProdFails (o : OverlayDef) : Option String :=
  if o.vni = 100 then some "bridge reconciliation failed" else none

/-- A malformed wire route (unparseable prefix) as a peer might send. -/
def badWireRoute : WireRoute :=
  { pfx := "not-a-prefix", nextHop := "10.100.0.2", metric := 100,
    leaseSeconds := 30, tags := [], vni := 100 }

/-- A well-formed wire route in the same batch. -/
def goodWireRoute : WireRoute :=
  { pfx := "172.16.20.0/24", nextHop := "10.100.0.2", metric := 100,
    leaseSeconds := 30, tags := [], vni := 100 }

/-- A route for prefix 172.16.50.0/24 owned by peer A. -/
def rteA : Route :=
  { pfx := "172.16.50.0/24", nextHop := "10.100.0.1", metric := 100,
    leaseSeconds := 30, tags := [], vni := 100, receivedAt := 0,
    expiresAt := none, peerID := "A" }

/-- A route for the same prefix owned by peer B. -/
def rteB : Route :=
  { pfx := "172.16.50.0/24", nextHop := "10.100.0.2", metric := 100,
    leaseSeconds := 30, tags := [], vni := 100, receivedAt := 0,
    expiresAt := none, peerID := "B" }

/-- A zero-lease route (as a peer route defaults to when the wire lease is
absent). -/
def rteZero : Route :=
  { pfx := "172.16.60.0/24", nextHop := "10.100.0.2", metric := 100,
    leaseSeconds := 0, tags := [], vni := 100, receivedAt := 0,
    expiresAt := none, peerID := "host-b" }

section TableLemmas

@[simp] theorem Route.isStale_none {r : Route} {now : Nat}
    (h : r.expiresAt = none) : r.isStale now = false := by
  simp [Route.isStale, h]

@[simp] theorem Route.isStale_some {r : Route} {now e : Nat}
    (h : r.expiresAt = some e) : r.isStale now = decide (e < now) := by
  simp [Route.isStale, h]

theorem RouteTable.mem_of_get {t : RouteTable} {p : String} {r : Route}
    (h : t.get p = some r) : (p, r) ∈ t := by
  unfold RouteTable.get at h
  rcases Option.map_eq_some'.mp h with ⟨e, hf, hsnd⟩
  have hp := List.find?_some hf
  have hmem := List.mem_of_find?_eq_some hf
  have : e = (p, r) := by
    rcases e with ⟨k, v⟩
    simp only at hsnd
    simp only [decide_eq_true_eq] at hp
    subst hsnd hp
    rfl
  exact this ▸ hmem

theorem RouteTable.eq_of_mem_of_key {t : RouteTable} (hWF : t.WF)
    {e e' : String × Route} (he : e ∈ t) (he' : e' ∈ t) (hk : e.1 = e'.1) :
    e = e' :=
  List.inj_on_of_nodup_map hWF.1 he he' hk

theorem RouteTable.get_eq_of_mem {t : RouteTable} (hWF : t.WF)
    {e : String × Route} (he : e ∈ t) : t.get e.1 = some e.2 := by
  unfold RouteTable.get
  cases hf : t.find? (fun x => x.1 = e.1) with
  | none =>
    rw [List.find?_eq_none] at hf
    exact absurd (by simp) (hf e he)
  | some e' =>
    have hp := List.find?_some hf
    have hmem := List.mem_of_find?_eq_some hf
    simp only [decide_eq_true_eq] at hp
    have := RouteTable.eq_of_mem_of_key hWF hmem he hp
    subst this
    rfl

theorem RouteTable.get_remove_self (t : RouteTable) (p : String) :
    RouteTable.get (t.remove p) p = none := by
  have h : (t.remove p).find? (fun e => e.1 = p) = none := by
    rw [List.find?_eq_none]
    intro e he
    have := (List.mem_filter.mp he).2
    simpa using this
  simp [RouteTable.get, h]

theorem RouteTable.get_remove_other (t : RouteTable) (p q : String) (h : q ≠ p) :
    RouteTable.get (t.remove p) q = RouteTable.get t q := by
  unfold RouteTable.get RouteTable.remove
  rw [List.find?_filter]
  have hfun : (fun a : String × Route =>
      decide ((decide ¬ a.1 = p) = true ∧ (decide (a.1 = q)) = true)) =
      (fun e : String × Route => decide (e.1 = q)) := by
    funext e
    by_cases hp : e.1 = p
    · have hq : ¬ e.1 = q := fun hc => h (hc ▸ hp ▸ rfl)
      have hpq : ¬ p = q := fun hc => h hc.symm
      simp [hp, hq, hpq]
    · simp [hp]
  rw [hfun]

theorem RouteTable.get_add_eq (t : RouteTable) (now : Nat) (r : Route) :
    RouteTable.get (t.add now r) r.pfx = some (stampRoute now r) := by
  unfold RouteTable.add RouteTable.get
  rw [List.find?_append]
  have h : (t.remove r.pfx).find? (fun e => e.1 = r.pfx) = none := by
    rw [List.find?_eq_none]
    intro e he
    have := (List.mem_filter.mp he).2
    simpa using this
  simp [h]

theorem RouteTable.get_add_ne (t : RouteTable) (now : Nat) (r : Route)
    (p : String) (h : p ≠ r.pfx) :
    RouteTable.get (t.add now r) p = RouteTable.get t p := by
  unfold RouteTable.add RouteTable.get
  rw [List.find?_append]
  have h2 : ([(r.pfx, stampRoute now r)] : RouteTable).find? (fun e => e.1 = p) = none := by
    rw [List.find?_eq_none]
    intro e he
    simp only [List.mem_singleton] at he
    subst he
    simpa using fun hc => h hc.symm
  rw [h2, Option.or_none]
  have h3 := RouteTable.get_remove_other t r.pfx p h
  unfold RouteTable.get RouteTable.remove at h3
  exact h3

theorem RouteTable.get_append_single (l : RouteTable) (p : String) (v : Route)
    (hl : ∀ e ∈ l, ¬ e.1 = p) :
    RouteTable.get (l ++ [(p, v)]) p = some v := by
  unfold RouteTable.get
  rw [List.find?_append]
  have h : l.find? (fun e => e.1 = p) = none := by
    rw [List.find?_eq_none]
    intro x hx
    simpa using hl x hx
  simp [h]

theorem stampRoute_receivedAt (now : Nat) (r : Route) :
    (stampRoute now r).receivedAt = now := by
  unfold stampRoute
  by_cases h : r.leaseSeconds > 0 <;> simp [h]

theorem stampRoute_peerID (now : Nat) (r : Route) :
    (stampRoute now r).peerID = r.peerID := by
  unfold stampRoute
  by_cases h : r.leaseSeconds > 0 <;> simp [h]

theorem stampRoute_pfx (now : Nat) (r : Route) :
    (stampRoute now r).pfx = r.pfx := by
  unfold stampRoute
  by_cases h : r.leaseSeconds > 0 <;> simp [h]

theorem stampRoute_expiresAt_pos (now : Nat) (r : Route)
    (h : 0 < r.leaseSeconds) :
    (stampRoute now r).expiresAt = some (now + r.leaseSeconds * 1000) := by
  simp [stampRoute, h]

theorem stampRoute_expiresAt_zero (now : Nat) (r : Route)
    (h : r.leaseSeconds = 0) :
    (stampRoute now r).expiresAt = r.expiresAt := by
  simp [stampRoute, h]

theorem ingest_incoming_aux (nodeId : String) (now : Nat)
    (ws : List WireRoute) :
    ∀ (t : RouteTable) (acc : List Route),
      ∀ r ∈ (ws.foldl
          (fun acc w =>
            (acc.1.add now (wireToRoute nodeId w),
             acc.2 ++ [wireToRoute nodeId w])) (t, acc)).2,
        r ∈ acc ∨ r.peerID = nodeId := by
  induction ws with
  | nil =>
    intro t acc r hr
    exact Or.inl hr
  | cons w ws ih =>
    intro t acc r hr
    rw [List.foldl_cons] at hr
    rcases ih _ _ r hr with h | h
    · rcases List.mem_append.mp h with h' | h'
      · exact Or.inl h'
      · have : r = wireToRoute nodeId w := by simpa using h'
        subst this
        exact Or.inr rfl
    · exact Or.inr h

theorem ingest_get_aux (nodeId : String) (now : Nat) (ws : List WireRoute) :
    ∀ (t : RouteTable) (acc : List Route) (p : String) (r : Route),
      RouteTable.get (ws.foldl
          (fun acc w =>
            (acc.1.add now (wireToRoute nodeId w),
             acc.2 ++ [wireToRoute nodeId w])) (t, acc)).1 p = some r →
        RouteTable.get t p = some r ∨ r.peerID = nodeId := by
  induction ws with
  | nil =>
    intro t acc p r h
    exact Or.inl h
  | cons w ws ih =>
    intro t acc p r h
    rw [List.foldl_cons] at h
    rcases ih _ _ p r h with h' | h'
    · by_cases hp : p = (wireToRoute nodeId w).pfx
      · subst hp
        rw [RouteTable.get_add_eq] at h'
        have hr := Option.some.inj h'
        right
        rw [← hr]
        exact (stampRoute_peerID now (wireToRoute nodeId w)).trans rfl
      · rw [RouteTable.get_add_ne t now _ p hp] at h'
        exact Or.inl h'
    · exact Or.inr h'

theorem ingestRoutes_incoming_peerID (nodeId : String) (ws : List WireRoute)
    (now : Nat) (t : RouteTable) :
    ∀ r ∈ (ingestRoutes nodeId ws now t).2, r.peerID = nodeId := by
  intro r hr
  rcases ingest_incoming_aux nodeId now ws t [] r hr with h | h
  · cases h
  · exact h

theorem ingestRoutes_get_peerID (nodeId : String) (ws : List WireRoute)
    (now : Nat) (t : RouteTable) (p : String) (r : Route)
    (h : RouteTable.get (ingestRoutes nodeId ws now t).1 p = some r) :
    RouteTable.get t p = some r ∨ r.peerID = nodeId :=
  ingest_get_aux nodeId now ws t [] p r h

theorem RouteTable.WF.remove {t : RouteTable} (hWF : t.WF) (p : String) :
    (t.remove p).WF := by
  constructor
  · exact ((List.filter_sublist t).map Prod.fst).nodup hWF.1
  · intro e he
    exact hWF.2 e (List.mem_filter.mp he).1

theorem RouteTable.no_key_of_get_none {t : RouteTable} {p : String}
    (h : t.get p = none) : ∀ e ∈ t, ¬ e.1 = p := by
  intro e he
  unfold RouteTable.get at h
  rw [Option.map_eq_none'] at h
  rw [List.find?_eq_none] at h
  simpa using h e he

theorem RouteTable.WF.tail {e : String × Route} {rest : RouteTable}
    (hWF : RouteTable.WF (e :: rest)) : RouteTable.WF rest := by
  constructor
  · exact (List.nodup_cons.mp hWF.1).2
  · intro e' he'
    exact hWF.2 e' (List.mem_cons_of_mem e he')

theorem RouteTable.remove_length {t : RouteTable} {p : String} {r : Route}
    (hWF : RouteTable.WF t) (h : RouteTable.get t p = some r) :
    (RouteTable.remove t p).length + 1 = t.length := by
  induction t with
  | nil => simp [RouteTable.get] at h
  | cons e rest ih =>
    by_cases hk : e.1 = p
    · have hnotin : ∀ e' ∈ rest, ¬ e'.1 = p := by
        intro e' he' hc
        have : e.1 ∈ rest.map Prod.fst := by
          rw [hk, ← hc]
          exact List.mem_map_of_mem Prod.fst he'
        exact (List.nodup_cons.mp hWF.1).1 this
      have hrest : rest.filter (fun e' => ¬ e'.1 = p) = rest := by
        rw [List.filter_eq_self]
        intro e' he'
        simpa using hnotin e' he'
      unfold RouteTable.remove
      rw [List.filter_cons_of_neg (by simpa using hk), hrest]
      simp
    · have hget : RouteTable.get rest p = some r := by
        unfold RouteTable.get at h ⊢
        rwa [List.find?_cons_of_neg _ (by simpa using hk)] at h
      unfold RouteTable.remove at ih ⊢
      rw [List.filter_cons_of_pos (by simpa using hk)]
      simpa using ih hWF.tail hget

theorem withdrawLoop_table (nodeId : String) (ps : List String) :
    ∀ (t : RouteTable) (c : Nat), RouteTable.WF t →
      (withdrawLoop nodeId t c ps).1 =
        t.filter (fun e => ¬ (e.1 ∈ ps ∧ e.2.peerID = nodeId)) := by
  induction ps with
  | nil =>
    intro t c _
    simp [withdrawLoop]
  | cons p ps ih =>
    intro t c hWF
    unfold withdrawLoop
    cases hg : RouteTable.get t p with
    | none =>
      rw [ih t c hWF]
      apply List.filter_congr
      intro e he
      have hk := RouteTable.no_key_of_get_none hg e he
      simp [hk]
    | some r =>
      dsimp only
      by_cases hpeer : r.peerID = nodeId
      · rw [if_pos hpeer]
        rw [ih (RouteTable.remove t p) (c + 1) (hWF.remove p)]
        unfold RouteTable.remove
        rw [List.filter_filter]
        apply List.filter_congr
        intro e he
        by_cases hk : e.1 = p
        · have hmem : (p, r) ∈ t := RouteTable.mem_of_get hg
          have he' : e = (p, r) :=
            RouteTable.eq_of_mem_of_key hWF he hmem (by simpa using hk)
          subst he'
          simp [hpeer]
        · simp [hk]
      · rw [if_neg hpeer]
        rw [ih t c hWF]
        apply List.filter_congr
        intro e he
        by_cases hk : e.1 = p
        · have hmem : (p, r) ∈ t := RouteTable.mem_of_get hg
          have he' : e = (p, r) :=
            RouteTable.eq_of_mem_of_key hWF he hmem (by simpa using hk)
          subst he'
          simp [hpeer]
        · simp [hk]

theorem withdrawLoop_count (nodeId : String) (ps : List String) :
    ∀ (t : RouteTable) (c : Nat), RouteTable.WF t →
      (withdrawLoop nodeId t c ps).2 +
        (withdrawLoop nodeId t c ps).1.length = c + t.length := by
  induction ps with
  | nil =>
    intro t c _
    simp [withdrawLoop, Nat.add_comm]
  | cons p ps ih =>
    intro t c hWF
    unfold withdrawLoop
    cases hg : RouteTable.get t p with
    | none => exact ih t c hWF
    | some r =>
      dsimp only
      by_cases hpeer : r.peerID = nodeId
      · rw [if_pos hpeer]
        have h1 := ih (RouteTable.remove t p) (c + 1) (hWF.remove p)
        have h2 := RouteTable.remove_length hWF hg
        omega
      · rw [if_neg hpeer]
        exact ih t c hWF

theorem RouteTable.WF.filter {t : RouteTable} (hWF : RouteTable.WF t)
    (pred : String × Route → Bool) : RouteTable.WF (t.filter pred) := by
  constructor
  · exact ((List.filter_sublist t).map Prod.fst).nodup hWF.1
  · intro e he
    exact hWF.2 e (List.mem_filter.mp he).1

theorem RouteTable.get_filter_of_pred_true {t : RouteTable}
    (hWF : RouteTable.WF t) {p : String} {r : Route}
    {pred : String × Route → Bool}
    (hg : RouteTable.get t p = some r) (hp : pred (p, r) = true) :
    RouteTable.get (t.filter pred) p = some r := by
  have hmem : (p, r) ∈ t.filter pred :=
    List.mem_filter.mpr ⟨RouteTable.mem_of_get hg, hp⟩
  exact RouteTable.get_eq_of_mem (hWF.filter pred) hmem

theorem RouteTable.get_filter_of_pred_false {t : RouteTable}
    (hWF : RouteTable.WF t) {p : String} {r : Route}
    {pred : String × Route → Bool}
    (hg : RouteTable.get t p = some r) (hp : pred (p, r) = false) :
    RouteTable.get (t.filter pred) p = none := by
  have hnone : (t.filter pred).find? (fun e => e.1 = p) = none := by
    rw [List.find?_eq_none]
    intro e he hk
    rcases List.mem_filter.mp he with ⟨het, hpe⟩
    have hk' : e.1 = p := by simpa using hk
    have heq : e = (p, r) :=
      RouteTable.eq_of_mem_of_key hWF het (RouteTable.mem_of_get hg)
        (by simpa using hk')
    rw [heq, hp] at hpe
    cases hpe
  unfold RouteTable.get
  rw [hnone]
  rfl

theorem reconcileLoop_append_ok (outcome : OverlayDef → Option String)
    (pre : List OverlayDef) (h : ∀ o ∈ pre, outcome o = none)
    (rest : List OverlayDef) :
    reconcileLoop outcome (pre ++ rest) =
      (pre ++ (reconcileLoop outcome rest).1,
       (reconcileLoop outcome rest).2) := by
  induction pre with
  | nil => simp
  | cons o pre ih =>
    have ho : outcome o = none := h o (List.mem_cons_self o pre)
    have ih' := ih (fun o' ho' => h o' (List.mem_cons_of_mem o ho'))
    rw [List.cons_append]
    simp [reconcileLoop, ho, ih']

theorem reconcileLoop_fail_head (outcome : OverlayDef → Option String)
    (f : OverlayDef) (e : String) (hf : outcome f = some e)
    (rest : List OverlayDef) :
    reconcileLoop outcome (f :: rest) = ([f], some e) := by
  unfold reconcileLoop
  rw [hf]

theorem flushFold_eq_filter (ok : KernelRoute → Bool) (T : Nat)
    (rs : List KernelRoute) :
    ∀ k : Kernel,
      rs.foldl (fun acc r => if ok r then kernelDelete r.dest T acc else acc)
          k =
        k.filter (fun x =>
          ¬ (x.table = T ∧ x.dest ∈ (rs.filter ok).map
              (fun r => r.dest))) := by
  induction rs with
  | nil =>
    intro k
    simp
  | cons r rs ih =>
    intro k
    rw [List.foldl_cons]
    by_cases hok : ok r
    · rw [if_pos hok]
      rw [ih (kernelDelete r.dest T k)]
      unfold kernelDelete
      rw [List.filter_filter]
      rw [List.filter_cons_of_pos hok]
      apply List.filter_congr
      intro x _
      by_cases ht : x.table = T
      · by_cases hd : x.dest = r.dest
        · simp [ht, hd]
        · simp [ht, hd]
      · simp [ht]
    · rw [if_neg hok, ih k]
      rw [List.filter_cons_of_neg (by simpa using hok)]

theorem RouteTable.get_add_ne_none (t : RouteTable) (now : Nat) (r : Route)
    (p : String) (h : RouteTable.get t p ≠ none) :
    RouteTable.get (t.add now r) p ≠ none := by
  by_cases hp : p = r.pfx
  · subst hp
    rw [RouteTable.get_add_eq]
    simp
  · rw [RouteTable.get_add_ne t now r p hp]
    exact h

theorem ingest_get_ne_none_aux (nodeId : String) (now : Nat)
    (ws : List WireRoute) :
    ∀ (t : RouteTable) (acc : List Route) (p : String),
      RouteTable.get t p ≠ none →
      RouteTable.get (ws.foldl
          (fun acc w =>
            (acc.1.add now (wireToRoute nodeId w),
             acc.2 ++ [wireToRoute nodeId w])) (t, acc)).1 p ≠ none := by
  induction ws with
  | nil =>
    intro t acc p h
    exact h
  | cons w ws ih =>
    intro t acc p h
    rw [List.foldl_cons]
    exact ih _ _ p (RouteTable.get_add_ne_none t now (wireToRoute nodeId w) p h)

theorem ingest_get_mem_ne_none (nodeId : String) (now : Nat)
    (ws : List WireRoute) :
    ∀ (t : RouteTable) (acc : List Route), ∀ w ∈ ws,
      RouteTable.get (ws.foldl
          (fun acc w =>
            (acc.1.add now (wireToRoute nodeId w),
             acc.2 ++ [wireToRoute nodeId w])) (t, acc)).1 w.pfx ≠ none := by
  induction ws with
  | nil =>
    intro t acc w hw
    cases hw
  | cons w' ws ih =>
    intro t acc w hw
    rw [List.foldl_cons]
    rcases List.mem_cons.mp hw with rfl | hmem
    · apply ingest_get_ne_none_aux
      rw [show w.pfx = (wireToRoute nodeId w).pfx from rfl,
        RouteTable.get_add_eq]
      simp
    · exact ih _ _ w hmem

theorem installStep_of_not_parses (cfg : Config) (acc : Kernel) (r : Route)
    (h : routeParses r = false) : installStep cfg acc r = acc := by
  unfold routeParses at h
  unfold installStep
  cases hp : parseCIDR r.pfx with
  | none => rfl
  | some dest =>
    cases hn : parseIPv4 r.nextHop with
    | none => rfl
    | some gw =>
      rw [hp, hn] at h
      simp at h

theorem install_filter_parses (cfg : Config) (rs : List Route) :
    ∀ k : Kernel,
      installReceivedRoutes cfg rs k =
        installReceivedRoutes cfg (rs.filter routeParses) k := by
  induction rs with
  | nil =>
    intro k
    rfl
  | cons r rs ih =>
    intro k
    by_cases hp : routeParses r
    · unfold installReceivedRoutes at ih ⊢
      rw [List.filter_cons_of_pos hp, List.foldl_cons, List.foldl_cons]
      exact ih (installStep cfg k r)
    · unfold installReceivedRoutes at ih ⊢
      rw [List.filter_cons_of_neg hp, List.foldl_cons,
        installStep_of_not_parses cfg k r (by simpa using hp)]
      exact ih k

theorem maskAddr_mask (p r : Nat) (h : p ≤ r) (a : Nat) :
    maskAddr p (maskAddr r a) = maskAddr p a := by
  unfold maskAddr
  have hk : 32 - r ≤ 32 - p := Nat.sub_le_sub_left h 32
  have hsplit : 2 ^ (32 - p) = 2 ^ (32 - r) * 2 ^ ((32 - p) - (32 - r)) := by
    rw [← pow_add]
    congr 1
    omega
  have hdiv : a / 2 ^ (32 - r) * 2 ^ (32 - r) / 2 ^ (32 - p) =
      a / 2 ^ (32 - p) := by
    rw [hsplit, ← Nat.div_div_eq_div_mul, ← Nat.div_div_eq_div_mul,
      Nat.mul_div_cancel _ (Nat.pos_pow_of_pos _ (by omega))]
  rw [hdiv]

theorem parseCIDR_masked {s : String} {c : Cidr} (h : parseCIDR s = some c) :
    maskAddr c.ones c.addr = c.addr := by
  unfold parseCIDR at h
  split at h
  · next a m heq =>
    cases hip : parseIPv4 (String.mk a) with
    | none =>
      rw [hip] at h
      simp at h
    | some ip =>
      rw [hip] at h
      simp only [Option.bind_eq_bind, Option.some_bind] at h
      by_cases hcond : (isDigits m && decide (decVal m ≤ 32)) = true
      · rw [if_pos hcond] at h
        have hc : c = ⟨maskAddr (decVal m) ip, decVal m⟩ :=
          (Option.some.inj h).symm
        subst hc
        exact maskAddr_mask (decVal m) (decVal m) (le_refl _) ip
      · rw [if_neg hcond] at h
        cases h
  · cases h

theorem matchesPrefix_iff {rn : Cidr}
    (hmask : maskAddr rn.ones rn.addr = rn.addr) (d : String) :
    matchesPrefix rn d = true ↔ supernetOrEqualOf d rn := by
  unfold matchesPrefix supernetOrEqualOf
  cases hd : parseCIDR d with
  | none => simp
  | some pn =>
    simp only [Bool.and_eq_true, decide_eq_true_eq]
    constructor
    · rintro ⟨hcont, hle⟩
      refine ⟨pn, rfl, ?_, hle⟩
      intro a ha
      rw [← maskAddr_mask pn.ones rn.ones hle a, ha]
      exact hcont
    · rintro ⟨pn', hpn', hcont, hle⟩
      injection hpn' with heq
      subst heq
      exact ⟨hcont rn.addr hmask, hle⟩

end TableLemmas

/-! ## Claim theorems -/

/-- C1: `RouteTable.Add` is last-writer-wins: `add(r)` stamps
`received_at = now`, sets `expires_at = received_at + lease` exactly when
the lease is positive (otherwise the field is left as passed in), and
unconditionally overwrites any existing entry for the prefix regardless of
owner, so after adding peer A's route and then peer B's route for the same
prefix, `get` returns peer B's route. -/
theorem routeTable_add_last_writer_wins
    (t : RouteTable) (r rA rB : Route) (now now₁ now₂ : Nat) (p : String)
    (hA : rA.pfx = p) (hB : rB.pfx = p) :
    RouteTable.get (t.add now r) r.pfx = some (stampRoute now r) ∧
    (stampRoute now r).receivedAt = now ∧
    (0 < r.leaseSeconds →
      (stampRoute now r).expiresAt = some (now + r.leaseSeconds * 1000)) ∧
    (r.leaseSeconds = 0 → (stampRoute now r).expiresAt = r.expiresAt) ∧
    RouteTable.get (t.add now₁ rA) p = some (stampRoute now₁ rA) ∧
    RouteTable.get ((t.add now₁ rA).add now₂ rB) p =
      some (stampRoute now₂ rB) ∧
    (stampRoute now₂ rB).peerID = rB.peerID := by
  refine ⟨RouteTable.get_add_eq t now r, stampRoute_receivedAt now r,
    stampRoute_expiresAt_pos now r, stampRoute_expiresAt_zero now r, ?_, ?_,
    stampRoute_peerID now₂ rB⟩
  · rw [← hA]
    exact RouteTable.get_add_eq t now₁ rA
  · rw [← hB]
    exact RouteTable.get_add_eq (t.add now₁ rA) now₂ rB

/-- Witness for C1 at a concrete table and concrete routes of peers A
and B. -/
theorem routeTable_add_last_writer_wins_witness :
    rteA.pfx = "172.16.50.0/24" ∧ rteB.pfx = "172.16.50.0/24" ∧
    RouteTable.get ((RouteTable.empty.add 1000 rteA).add 2000 rteB)
        "172.16.50.0/24" = some (stampRoute 2000 rteB) ∧
    (stampRoute 2000 rteB).peerID = "B" := by
  have h := routeTable_add_last_writer_wins RouteTable.empty rteA rteA rteB
    1000 1000 2000 "172.16.50.0/24" rfl rfl
  exact ⟨rfl, rfl, h.2.2.2.2.2.1, h.2.2.2.2.2.2⟩

/-- C10 (implicit): a route added with `lease_seconds = 0` — including any
peer-learned route whose wire lease defaulted to zero, since ingestion
always starts from an unset `expires_at` — keeps `expires_at` unset and is
never removed by `expire_stale`, at any probe time. -/
theorem zero_lease_route_never_expires
    (t : RouteTable) (r : Route) (now : Nat)
    (h0 : r.leaseSeconds = 0) (hE : r.expiresAt = none) :
    (∀ nodeId w, (wireToRoute nodeId w).expiresAt = none) ∧
    (stampRoute now r).expiresAt = none ∧
    ∀ tprobe, RouteTable.get ((t.add now r).expireStale tprobe).1 r.pfx =
      some (stampRoute now r) := by
  have hstamp : (stampRoute now r).expiresAt = none :=
    (stampRoute_expiresAt_zero now r h0).trans hE
  refine ⟨fun _ _ => rfl, hstamp, fun tprobe => ?_⟩
  unfold RouteTable.add RouteTable.expireStale
  rw [List.filter_append]
  have hsingle : List.filter (fun e : String × Route => ¬ e.2.isStale tprobe)
      [(r.pfx, stampRoute now r)] = [(r.pfx, stampRoute now r)] := by
    simp [List.filter_cons, Route.isStale_none hstamp]
  rw [hsingle]
  apply RouteTable.get_append_single
  intro e he
  have := (List.mem_filter.mp he).1
  have hmem := List.mem_filter.mp this
  simpa using hmem.2

/-- Witness for C10: the concrete zero-lease route survives an
`expire_stale` far in the future. -/
theorem zero_lease_route_never_expires_witness :
    rteZero.leaseSeconds = 0 ∧ rteZero.expiresAt = none ∧
    RouteTable.get ((RouteTable.empty.add 5 rteZero).expireStale
        999999999).1 "172.16.60.0/24" = some (stampRoute 5 rteZero) := by
  have h := zero_lease_route_never_expires RouteTable.empty rteZero 5 rfl rfl
  exact ⟨rfl, rfl, h.2.2 999999999⟩

/-- C3: peer attribution on ingestion.  For any `ExchangeState` or
`AnnounceRoutes` request, every route handed to the routes-received
callback carries the sender's declared `node_id` as `peer_id`, and every
table entry the handler creates or replaces does too (an entry whose value
is not the pre-existing one has `peer_id = node_id`): the wire payload
carries no peer field, so attribution depends only on the request's
`node_id`. -/
theorem server_stamps_peer_id
    (serverNodeId : String) (req : StateRequest) (ann : RouteAnnouncement)
    (now : Nat) (t : RouteTable) :
    (∀ r ∈ (Server.exchangeState serverNodeId req now t).2.1,
       r.peerID = req.nodeId) ∧
    (∀ p r,
       RouteTable.get (Server.exchangeState serverNodeId req now t).1 p =
         some r →
       RouteTable.get t p = some r ∨ r.peerID = req.nodeId) ∧
    (∀ r ∈ (Server.announceRoutes ann now t).2.1, r.peerID = ann.nodeId) ∧
    (∀ p r,
       RouteTable.get (Server.announceRoutes ann now t).1 p = some r →
       RouteTable.get t p = some r ∨ r.peerID = ann.nodeId) := by
  refine ⟨?_, ?_, ?_, ?_⟩
  · exact ingestRoutes_incoming_peerID req.nodeId req.routes now t
  · exact fun p r h => ingestRoutes_get_peerID req.nodeId req.routes now t p r h
  · exact ingestRoutes_incoming_peerID ann.nodeId ann.routes now t
  · exact fun p r h => ingestRoutes_get_peerID ann.nodeId ann.routes now t p r h

/-- C2: withdrawal is scoped to the owning peer.  `WithdrawRoutes` from
sender `X` removes exactly the table entries whose prefix is in the request
and whose `peer_id` is `X`; entries owned by any other peer survive
unchanged, and the acknowledgment's `routes_processed` counts exactly the
removed entries. -/
theorem withdraw_scoped_to_owner (req : RouteWithdrawal) (t : RouteTable)
    (hWF : RouteTable.WF t) :
    (Server.withdrawRoutes req t).1 =
      t.filter (fun e => ¬ (e.1 ∈ req.prefixes ∧ e.2.peerID = req.nodeId)) ∧
    (∀ e ∈ t, ¬ e.2.peerID = req.nodeId →
      e ∈ (Server.withdrawRoutes req t).1) ∧
    (Server.withdrawRoutes req t).2.routesProcessed =
      t.length - (Server.withdrawRoutes req t).1.length ∧
    (Server.withdrawRoutes req t).2.accepted = true := by
  have htab := withdrawLoop_table req.nodeId req.prefixes t 0 hWF
  have hcnt := withdrawLoop_count req.nodeId req.prefixes t 0 hWF
  refine ⟨htab, ?_, ?_, rfl⟩
  · intro e he hpeer
    show e ∈ (withdrawLoop req.nodeId t 0 req.prefixes).1
    rw [htab]
    rw [List.mem_filter]
    exact ⟨he, by simpa using Or.inr hpeer⟩
  · show (withdrawLoop req.nodeId t 0 req.prefixes).2 =
      t.length - (withdrawLoop req.nodeId t 0 req.prefixes).1.length
    omega

/-- Witness for C2: peer A's withdrawal of the prefix owned by peer B
leaves the one-entry table unchanged and reports zero processed routes. -/
theorem withdraw_scoped_to_owner_witness :
    RouteTable.WF [("172.16.50.0/24", rteB)] ∧
    (Server.withdrawRoutes
        { nodeId := "A", prefixes := ["172.16.50.0/24"], timestampMs := 0 }
        [("172.16.50.0/24", rteB)]).1 =
      List.filter
        (fun e => ¬ (e.1 ∈ ["172.16.50.0/24"] ∧ e.2.peerID = "A"))
        [("172.16.50.0/24", rteB)] ∧
    (Server.withdrawRoutes
        { nodeId := "A", prefixes := ["172.16.50.0/24"], timestampMs := 0 }
        [("172.16.50.0/24", rteB)]).2.routesProcessed = 0 := by
  have hWF : RouteTable.WF [("172.16.50.0/24", rteB)] := by
    constructor
    · simp
    · intro e he
      simp only [List.mem_singleton] at he
      subst he
      rfl
  have h := withdraw_scoped_to_owner
    { nodeId := "A", prefixes := ["172.16.50.0/24"], timestampMs := 0 }
    [("172.16.50.0/24", rteB)] hWF
  refine ⟨hWF, h.1, ?_⟩
  rw [h.2.2.1, h.1]
  decide

/-- C4: `expire_stale` removes exactly the entries whose expiry is set and
strictly in the past, never touches entries with an unset expiry, and
returns the removed routes to the caller; concretely, a route added with
lease 10 at t₀ = 0 is kept (and nothing is returned) at t₀ + 9.9 s and is
removed and returned at t₀ + 10.1 s. -/
theorem expireStale_removes_exactly_stale (t : RouteTable) (now : Nat)
    (hWF : RouteTable.WF t) :
    (∀ p r, RouteTable.get t p = some r →
       (r.expiresAt = none →
          RouteTable.get (RouteTable.expireStale t now).1 p = some r) ∧
       (∀ e, r.expiresAt = some e → e < now →
          RouteTable.get (RouteTable.expireStale t now).1 p = none ∧
          r ∈ (RouteTable.expireStale t now).2) ∧
       (∀ e, r.expiresAt = some e → ¬ e < now →
          RouteTable.get (RouteTable.expireStale t now).1 p = some r)) ∧
    (∀ r ∈ (RouteTable.expireStale t now).2,
       ∃ e, r.expiresAt = some e ∧ e < now ∧
         RouteTable.get t r.pfx = some r) ∧
    RouteTable.expireStale (RouteTable.add RouteTable.empty 0 leaseRoute)
        9900 = (RouteTable.add RouteTable.empty 0 leaseRoute, []) ∧
    (RouteTable.expireStale (RouteTable.add RouteTable.empty 0 leaseRoute)
        10100).2 = [stampRoute 0 leaseRoute] ∧
    RouteTable.get
        (RouteTable.expireStale (RouteTable.add RouteTable.empty 0 leaseRoute)
          10100).1 "172.16.30.0/24" = none := by
  refine ⟨?_, ?_, by decide, by decide, by decide⟩
  · intro p r hg
    refine ⟨?_, ?_, ?_⟩
    · intro hE
      exact RouteTable.get_filter_of_pred_true hWF hg
        (by simp [Route.isStale_none hE])
    · intro e hE hlt
      constructor
      · exact RouteTable.get_filter_of_pred_false hWF hg
          (by simp [Route.isStale_some hE, hlt])
      · show r ∈ (List.filter (fun e => e.2.isStale now) t).map Prod.snd
        refine List.mem_map.mpr ⟨(p, r), ?_, rfl⟩
        apply List.mem_filter.mpr
        exact ⟨RouteTable.mem_of_get hg, by simp [Route.isStale_some hE, hlt]⟩
    · intro e hE hge
      exact RouteTable.get_filter_of_pred_true hWF hg
        (by simp [Route.isStale_some hE, hge])
  · intro r hr
    rcases List.mem_map.mp hr with ⟨en, hen, hsnd⟩
    rcases List.mem_filter.mp hen with ⟨het, hstale⟩
    have hpfx : en.1 = r.pfx := by rw [← hsnd]; exact hWF.2 en het
    have hget : RouteTable.get t r.pfx = some r := by
      rw [← hpfx, ← hsnd]
      exact RouteTable.get_eq_of_mem hWF het
    cases hE : r.expiresAt with
    | none =>
      rw [← hsnd] at hE
      rw [Route.isStale_none hE] at hstale
      cases hstale
    | some e =>
      refine ⟨e, rfl, ?_, hget⟩
      rw [← hsnd] at hE
      rw [Route.isStale_some hE] at hstale
      exact of_decide_eq_true hstale

/-- Witness for C4 at a concrete one-entry table. -/
theorem expireStale_removes_exactly_stale_witness :
    RouteTable.WF [("172.16.50.0/24", rteB)] ∧
    RouteTable.expireStale (RouteTable.add RouteTable.empty 0 leaseRoute)
        9900 = (RouteTable.add RouteTable.empty 0 leaseRoute, []) ∧
    (RouteTable.expireStale (RouteTable.add RouteTable.empty 0 leaseRoute)
        10100).2 = [stampRoute 0 leaseRoute] := by
  have hWF : RouteTable.WF [("172.16.50.0/24", rteB)] := by
    constructor
    · simp
    · intro e he
      simp only [List.mem_singleton] at he
      subst he
      rfl
  have h := expireStale_removes_exactly_stale [("172.16.50.0/24", rteB)] 0 hWF
  exact ⟨hWF, h.2.2.1, h.2.2.2.1⟩

/-- C8: health-probe transition reporting.  The probe is an `ExchangeState`
with an empty route list under a 5 s timeout; a peer whose probe ends in
`Unavailable` or timeout is flipped to unhealthy, a successful probe makes
the peer healthy with `last_seen` refreshed, and the returned list contains
exactly the ids of peers that were healthy before the round and whose probe
failed (empty when no peer transitioned). -/
theorem checkPeerHealth_transition_report
    (now : Nat) (outcome : String → ProbeOutcome) (conns : List PeerConn) :
    (∀ nid ts, (healthProbeRequest nid ts).routes = []) ∧
    healthProbeTimeoutMs = 5000 ∧
    (∀ o : ProbeOutcome,
       o.failed = true ↔ (o = .unavailable ∨ o = .timeout)) ∧
    (∀ pc ∈ conns, (outcome pc.peerID).failed = true →
       { pc with healthy := false } ∈ (checkPeerHealth now outcome conns).1) ∧
    (∀ pc ∈ conns, (outcome pc.peerID).failed = false →
       { pc with healthy := true, lastSeen := now } ∈
         (checkPeerHealth now outcome conns).1) ∧
    (∀ p, p ∈ (checkPeerHealth now outcome conns).2 ↔
       ∃ pc ∈ conns, pc.peerID = p ∧ pc.healthy = true ∧
         (outcome pc.peerID).failed = true) := by
  refine ⟨fun _ _ => rfl, rfl,
    fun o => by cases o <;> simp [ProbeOutcome.failed], ?_, ?_, ?_⟩
  · intro pc hmem hf
    exact List.mem_map.mpr ⟨pc, hmem, by simp [hf]⟩
  · intro pc hmem hf
    exact List.mem_map.mpr ⟨pc, hmem, by simp [hf]⟩
  · intro p
    show p ∈ (conns.filter
        (fun pc => pc.healthy && (outcome pc.peerID).failed)).map
        (fun pc => pc.peerID) ↔ _
    simp only [List.mem_map, List.mem_filter, Bool.and_eq_true]
    constructor
    · rintro ⟨pc, ⟨hmem, hh, hf⟩, rfl⟩
      exact ⟨pc, hmem, rfl, hh, hf⟩
    · rintro ⟨pc, hmem, rfl, hh, hf⟩
      exact ⟨pc, ⟨hmem, hh, hf⟩, rfl⟩

/-- Counterexample to C7: with two configured overlays and a failure in the
first one, the second overlay is *not* reconciled in the same tick — the
sweep aborts at the first failing overlay, contradicting "proceeds to
reconcile the remaining overlays in the same tick". -/
theorem reconcile_abort_counterexample :
    overlayMgmt ∈ cfgTwoOverlays.overlays ∧
    (reconcile 1000 cfgTwoOverlays outcomeProdFails
        { lastRun := none, lastErr := none }).2.2 = [overlayProd] ∧
    overlayMgmt ∉ (reconcile 1000 cfgTwoOverlays outcomeProdFails
        { lastRun := none, lastErr := none }).2.2 := by
  refine ⟨by decide, by decide, by decide⟩

/-- C7 (amended): a failing overlay aborts the whole sweep — the overlays
attempted in the tick are exactly the successful prefix plus the failing
overlay, the overlays after it are not attempted until the next tick — and
the engine records the error and the last-run timestamp for
introspection. -/
theorem reconcile_aborts_sweep_on_error
    (now : Nat) (cfg : Config) (outcome : OverlayDef → Option String)
    (s : RecState) (pre post : List OverlayDef) (f : OverlayDef) (e : String)
    (hsplit : cfg.overlays = pre ++ f :: post)
    (hpre : ∀ o ∈ pre, outcome o = none)
    (hf : outcome f = some e) :
    (reconcile now cfg outcome s).2.2 = pre ++ [f] ∧
    (reconcile now cfg outcome s).2.1 = some e ∧
    (reconcile now cfg outcome s).1.lastErr = some e ∧
    (reconcile now cfg outcome s).1.lastRun = some now := by
  have hne : ¬ cfg.overlays = [] := by
    rw [hsplit]
    simp
  unfold reconcile
  rw [if_neg hne, hsplit, reconcileLoop_append_ok outcome pre hpre,
    reconcileLoop_fail_head outcome f e hf]
  exact ⟨rfl, rfl, rfl, rfl⟩

/-- Witness for C7's amended statement at the concrete two-overlay
configuration. -/
theorem reconcile_aborts_sweep_on_error_witness :
    cfgTwoOverlays.overlays = [] ++ overlayProd :: [overlayMgmt] ∧
    outcomeProdFails overlayProd = some "bridge reconciliation failed" ∧
    (reconcile 1000 cfgTwoOverlays outcomeProdFails
        { lastRun := none, lastErr := none }).2.2 = [] ++ [overlayProd] ∧
    (reconcile 1000 cfgTwoOverlays outcomeProdFails
        { lastRun := none, lastErr := none }).1.lastErr =
      some "bridge reconciliation failed" := by
  have h := reconcile_aborts_sweep_on_error 1000 cfgTwoOverlays
    outcomeProdFails { lastRun := none, lastErr := none } [] [overlayMgmt]
    overlayProd "bridge reconciliation failed" rfl
    (by intro o ho; cases ho) rfl
  exact ⟨rfl, rfl, h.1, h.2.2.1⟩

/-- Counterexample to C6: with two configured overlays (tables 100 and 200)
the shutdown flush — which runs `FlushByProtocol` only on the legacy/global
install table (default 100) — leaves a daemon-tagged route in the
management overlay's table 200 in place, so listing by the protocol tag in
that overlay's table is not empty after shutdown. -/
theorem shutdownFlush_counterexample :
    overlayMgmt ∈ cfgTwoOverlays.overlays ∧
    tableOrDefault overlayMgmt.imp.install.table = 200 ∧
    kernelRouteMgmt.protocol = RouteProtocolNNetMan ∧
    shutdownFlush cfgTwoOverlays (fun _ => true) [kernelRouteMgmt] =
      [kernelRouteMgmt] ∧
    listByProtocol 200 RouteProtocolNNetMan
        (shutdownFlush cfgTwoOverlays (fun _ => true) [kernelRouteMgmt]) ≠
      [] := by
  refine ⟨by decide, by decide, by decide, by decide, by decide⟩

/-- C6 (amended): the shutdown flush removes every daemon-tagged route from
the single legacy/global install table (`cfg.routing.import.install.table`,
defaulting to 100) — individual deletion failures do not stop the remaining
deletions — but it does not touch any other table, so daemon-tagged routes
in other overlays' tables survive the shutdown. -/
theorem shutdownFlush_only_default_table (cfg : Config) (k : Kernel)
    (ok : KernelRoute → Bool) :
    listByProtocol (defaultTable cfg) RouteProtocolNNetMan
        (shutdownFlush cfg (fun _ => true) k) = [] ∧
    (∀ r ∈ k, ¬ r.table = defaultTable cfg → r ∈ shutdownFlush cfg ok k) ∧
    (∀ r ∈ listByProtocol (defaultTable cfg) RouteProtocolNNetMan k,
       ok r = true → r ∉ shutdownFlush cfg ok k) := by
  have hall := flushFold_eq_filter (fun _ => true) (defaultTable cfg)
    (listByProtocol (defaultTable cfg) RouteProtocolNNetMan k) k
  have hok := flushFold_eq_filter ok (defaultTable cfg)
    (listByProtocol (defaultTable cfg) RouteProtocolNNetMan k) k
  refine ⟨?_, ?_, ?_⟩
  · show List.filter _ (shutdownFlush cfg (fun _ => true) k) = []
    rw [List.filter_eq_nil_iff]
    intro x hx
    unfold shutdownFlush flushByProtocol at hx
    rw [hall] at hx
    rcases List.mem_filter.mp hx with ⟨hxk, hpred⟩
    intro hxprop
    have hxlist : x ∈ listByProtocol (defaultTable cfg)
        RouteProtocolNNetMan k := by
      apply List.mem_filter.mpr
      exact ⟨hxk, hxprop⟩
    have hdest : x.dest ∈
        ((listByProtocol (defaultTable cfg) RouteProtocolNNetMan k).filter
          (fun _ => true)).map (fun r => r.dest) := by
      apply List.mem_map.mpr
      exact ⟨x, by simpa using hxlist, rfl⟩
    have hxprop' := of_decide_eq_true hxprop
    simp only [decide_eq_true_eq] at hpred
    exact hpred ⟨hxprop'.1, hdest⟩
  · intro r hrk hrt
    unfold shutdownFlush flushByProtocol
    rw [hok]
    apply List.mem_filter.mpr
    refine ⟨hrk, ?_⟩
    simp only [decide_eq_true_eq]
    intro hc
    exact hrt hc.1
  · intro r hrl hokr
    unfold shutdownFlush flushByProtocol
    rw [hok]
    intro hmem
    rcases List.mem_filter.mp hmem with ⟨_, hpred⟩
    simp only [decide_eq_true_eq] at hpred
    apply hpred
    constructor
    · exact (List.mem_filter.mp hrl).2 |> fun h =>
        (of_decide_eq_true h).1
    · apply List.mem_map.mpr
      exact ⟨r, List.mem_filter.mpr ⟨hrl, hokr⟩, rfl⟩

/-- Counterexample to C9: a route with an unparseable prefix in an announced
batch *does* enter the in-memory route table — `AnnounceRoutes` ingests
every route of the batch before any parsing happens; only the kernel
installation step skips it.  This contradicts "the offending routes do not
enter the route table". -/
theorem invalid_route_enters_table_counterexample :
    parseCIDR badWireRoute.pfx = none ∧
    RouteTable.get (Server.announceRoutes
        { nodeId := "host-b", routes := [badWireRoute, goodWireRoute],
          timestampMs := 0 } 0 RouteTable.empty).1 "not-a-prefix" =
      some (stampRoute 0 (wireToRoute "host-b" badWireRoute)) := by
  exact ⟨by decide, by decide⟩

/-- C9 (amended): routes with an unparseable prefix or next-hop are dropped
individually at the kernel-installation step only: installing a batch is
the same as installing its parseable subset (so every other route in the
batch is still installed, and an offending route contributes nothing to the
kernel), while the in-memory route table ingests every route of the batch,
offending ones included. -/
theorem invalid_routes_dropped_at_install_only
    (req : RouteAnnouncement) (now : Nat) (t : RouteTable) (cfg : Config)
    (k : Kernel) :
    (∀ w ∈ req.routes,
       RouteTable.get (Server.announceRoutes req now t).1 w.pfx ≠ none) ∧
    installReceivedRoutes cfg (Server.announceRoutes req now t).2.1 k =
      installReceivedRoutes cfg
        ((Server.announceRoutes req now t).2.1.filter routeParses) k ∧
    (∀ r : Route, routeParses r = false →
       installReceivedRoutes cfg [r] k = k) := by
  refine ⟨?_, ?_, ?_⟩
  · intro w hw
    exact ingest_get_mem_ne_none req.nodeId now req.routes t [] w hw
  · exact install_filter_parses cfg (Server.announceRoutes req now t).2.1 k
  · intro r hr
    show List.foldl (installStep cfg) k [r] = k
    rw [List.foldl_cons]
    rw [installStep_of_not_parses cfg k r hr]
    rfl

/-- C5: deny precedence in the import filter.  For a route whose prefix
parses to `rn`: if some deny prefix is a supernet of or equal to the
route's network, `ShouldImportForOverlay` returns `false`, even when
`accept_all` is set; if no deny prefix matches and `accept_all` is set it
returns `true`; otherwise it returns `true` iff some allow prefix is a
supernet of or equal to the route's network. -/
theorem import_filter_deny_precedence
    (route : Route) (imp : ImportConfig) (rn : Cidr)
    (hp : parseCIDR route.pfx = some rn) :
    ((∃ d ∈ imp.deny, supernetOrEqualOf d rn) →
       shouldImportForOverlay route imp = false) ∧
    ((∀ d ∈ imp.deny, ¬ supernetOrEqualOf d rn) → imp.acceptAll = true →
       shouldImportForOverlay route imp = true) ∧
    ((∀ d ∈ imp.deny, ¬ supernetOrEqualOf d rn) → imp.acceptAll = false →
       (shouldImportForOverlay route imp = true ↔
         ∃ a ∈ imp.allow, supernetOrEqualOf a rn)) := by
  have hmask := parseCIDR_masked hp
  have hdenyFalse :
      (∀ d ∈ imp.deny, ¬ supernetOrEqualOf d rn) →
      imp.deny.any (fun d => matchesPrefix rn d) = false := by
    intro hnone
    rw [List.any_eq_false]
    intro d hd hm
    exact hnone d hd ((matchesPrefix_iff hmask d).mp hm)
  unfold shouldImportForOverlay
  rw [hp]
  refine ⟨?_, ?_, ?_⟩
  · rintro ⟨d, hd, hsup⟩
    have hany : imp.deny.any (fun d => matchesPrefix rn d) = true :=
      List.any_eq_true.mpr ⟨d, hd, (matchesPrefix_iff hmask d).mpr hsup⟩
    simp [hany]
  · intro hnone hacc
    simp [hdenyFalse hnone, hacc]
  · intro hnone hacc
    simp only [hdenyFalse hnone, hacc, Bool.false_eq_true, if_false,
      List.any_eq_true]
    constructor
    · rintro ⟨a, ha, hm⟩
      exact ⟨a, ha, (matchesPrefix_iff hmask a).mp hm⟩
    · rintro ⟨a, ha, hsup⟩
      exact ⟨a, ha, (matchesPrefix_iff hmask a).mpr hsup⟩

/-- Witness for C5: a deny entry `10.0.0.0/8` rejects the route
`10.1.2.0/24` even though `accept_all` is set. -/
theorem import_filter_deny_precedence_witness :
    parseCIDR "10.1.2.0/24" = some ⟨167838208, 24⟩ ∧
    shouldImportForOverlay
      { pfx := "10.1.2.0/24", nextHop := "10.100.0.2", metric := 100,
        leaseSeconds := 30, tags := [], vni := 100, receivedAt := 0,
        expiresAt := none, peerID := "X" }
      { acceptAll := true, allow := [], deny := ["10.0.0.0/8"],
        install := { table := 100, flushOnPeerDown := false,
                     routeLeaseSeconds := 30 } } = false := by
  have hp : parseCIDR "10.1.2.0/24" = some ⟨167838208, 24⟩ := by decide
  have h := import_filter_deny_precedence
    { pfx := "10.1.2.0/24", nextHop := "10.100.0.2", metric := 100,
      leaseSeconds := 30, tags := [], vni := 100, receivedAt := 0,
      expiresAt := none, peerID := "X" }
    { acceptAll := true, allow := [], deny := ["10.0.0.0/8"],
      install := { table := 100, flushOnPeerDown := false,
                   routeLeaseSeconds := 30 } }
    ⟨167838208, 24⟩ hp
  refine ⟨hp, h.1 ⟨"10.0.0.0/8", by decide, ⟨167772160, 8⟩, by decide,
    ?_, by decide⟩⟩
  intro a ha
  rw [show (8 : Nat) = (⟨167772160, 8⟩ : Cidr).ones from rfl,
    ← maskAddr_mask 8 24 (by omega) a]
  rw [show ((⟨167838208, 24⟩ : Cidr).ones : Nat) = 24 from rfl] at ha
  rw [ha]
  decide

end NNetMan
